import Mathlib

/-!
# Verification of the k8s-spot-rescheduler planning and control loop

Shallow embedding of `src/rescheduler.go`.  The file contains two
concatenated program variants (two `package main` blocks); both are
modelled here.  Pods and `NodeInfo` values live behind pointers in Go, so
the embedding uses an explicit store (`Heap`) addressed by natural-number
locations: in-place mutations (`pod.Spec.NodeName = ""`, appending to a
`NodeInfo`'s pod slice) become explicit writes, and aliasing questions
(does planning mutate the real spot array?) are faithfully expressible.

The `nodes` package (`CopyNodeInfos`, `AddPod`) and the `podId` helper are
not part of the sources; they are modelled from the specification and
marked as such in their doc comments.  The scheduler-predicate engine is an
external collaborator and is taken as an abstract boolean parameter.
-/

namespace SpotResched

/-- A pod: the fields of `apiv1.Pod` the planner reads or writes.
`name` stands for the pod's identity (used by `podId`), `nodeName` is
`pod.Spec.NodeName`. -/
structure Pod where
  name : String
  nodeName : String
  deriving Repr, DecidableEq, Inhabited

/-- One `nodes.NodeInfo` cell: the node's name together with the list of
pod locations (`[]*apiv1.Pod` is a slice of pointers) attributed to it. -/
structure NodeInfoCell where
  nodeName : String
  pods : List Nat
  deriving Repr, DecidableEq, Inhabited

/-- The store: `NodeInfo` objects and pod objects, addressed by index.
Go pointers become indices into these lists. -/
structure Heap where
  nodes : List NodeInfoCell
  pods : List Pod
  deriving Repr, DecidableEq, Inhabited

/-- The external scheduler-predicate collaborator
(`predicateChecker.CheckPredicates`): given the candidate pod, the
node's name and the values of the pods currently attributed to the node,
decide feasibility.  `true` models `err == nil`. -/
abbrev FeasPred := Pod → String → List Pod → Bool

def readNode (h : Heap) (l : Nat) : NodeInfoCell := h.nodes.getD l default

def writeNode (h : Heap) (l : Nat) (c : NodeInfoCell) : Heap :=
  { h with nodes := h.nodes.set l c }

def readPod (h : Heap) (l : Nat) : Pod := h.pods.getD l default

def writePod (h : Heap) (l : Nat) (p : Pod) : Heap :=
  { h with pods := h.pods.set l p }

/-- `pod.Spec.NodeName = ""` applied to a pod value. -/
def clearNodeName (p : Pod) : Pod := { p with nodeName := "" }

/-- The in-place mutation `pod.Spec.NodeName = ""` on the pod stored at
location `l`. -/
def clearPodAt (h : Heap) (l : Nat) : Heap :=
  writePod h l (clearNodeName (readPod h l))

/-! ## List index lemmas -/

theorem getD_set_eq {α : Type} : ∀ (l : List α) (i : Nat) (v d : α),
    i < l.length → (l.set i v).getD i d = v := by
  intro l
  induction l with
  | nil => intro i v d hi; simp at hi
  | cons a as ih =>
    intro i v d hi
    cases i with
    | zero => rfl
    | succ j =>
      simp only [List.set, List.getD_cons_succ]
      exact ih j v d (by simpa using hi)

theorem getD_set_ne {α : Type} : ∀ (l : List α) (i j : Nat) (v d : α),
    i ≠ j → (l.set i v).getD j d = l.getD j d := by
  intro l
  induction l with
  | nil => intro i j v d _; rfl
  | cons a as ih =>
    intro i j v d hij
    cases i with
    | zero =>
      cases j with
      | zero => exact absurd rfl hij
      | succ j0 => rfl
    | succ i0 =>
      cases j with
      | zero => rfl
      | succ j0 =>
        simp only [List.set, List.getD_cons_succ]
        exact ih i0 j0 v d (fun hc => hij (by rw [hc]))

theorem set_getD_id {α : Type} : ∀ (l : List α) (i : Nat) (d : α),
    l.set i (l.getD i d) = l := by
  intro l
  induction l with
  | nil => intro i d; rfl
  | cons a as ih =>
    intro i d
    cases i with
    | zero => rfl
    | succ j => simp only [List.set, List.getD_cons_succ]; rw [ih]

theorem getD_append_lt {α : Type} : ∀ (l₁ l₂ : List α) (i : Nat) (d : α),
    i < l₁.length → (l₁ ++ l₂).getD i d = l₁.getD i d := by
  intro l₁
  induction l₁ with
  | nil => intro l₂ i d hi; simp at hi
  | cons a as ih =>
    intro l₂ i d hi
    cases i with
    | zero => rfl
    | succ j =>
      simp only [List.cons_append, List.getD_cons_succ]
      exact ih l₂ j d (by simpa using hi)

theorem getD_append_add {α : Type} : ∀ (l₁ l₂ : List α) (i : Nat) (d : α),
    (l₁ ++ l₂).getD (l₁.length + i) d = l₂.getD i d := by
  intro l₁
  induction l₁ with
  | nil => intro l₂ i d; simp
  | cons a as ih =>
    intro l₂ i d
    have harith : (a :: as).length + i = (as.length + i) + 1 := by
      simp [List.length_cons]; omega
    rw [harith]
    simp only [List.cons_append, List.getD_cons_succ]
    exact ih l₂ i d

theorem getD_of_le {α : Type} : ∀ (l : List α) (i : Nat) (d : α),
    l.length ≤ i → l.getD i d = d := by
  intro l
  induction l with
  | nil => intro i d _; rfl
  | cons a as ih =>
    intro i d hi
    cases i with
    | zero => simp at hi
    | succ j =>
      simp only [List.getD_cons_succ]
      exact ih j d (by simpa using hi)

theorem set_of_le {α : Type} : ∀ (l : List α) (i : Nat) (v : α),
    l.length ≤ i → l.set i v = l := by
  intro l
  induction l with
  | nil => intro i v _; rfl
  | cons a as ih =>
    intro i v hi
    cases i with
    | zero => simp at hi
    | succ j =>
      simp only [List.set]
      rw [ih j v (by simpa using hi)]

/-! ## Heap operation lemmas -/

@[simp] theorem nodes_writePod (h : Heap) (l : Nat) (p : Pod) :
    (writePod h l p).nodes = h.nodes := rfl

@[simp] theorem pods_writeNode (h : Heap) (l : Nat) (c : NodeInfoCell) :
    (writeNode h l c).pods = h.pods := rfl

@[simp] theorem readNode_writePod (h : Heap) (l q : Nat) (p : Pod) :
    readNode (writePod h l p) q = readNode h q := rfl

@[simp] theorem readPod_writeNode (h : Heap) (l q : Nat) (c : NodeInfoCell) :
    readPod (writeNode h l c) q = readPod h q := rfl

theorem readPod_writePod_eq (h : Heap) (l : Nat) (p : Pod)
    (hl : l < h.pods.length) : readPod (writePod h l p) l = p :=
  getD_set_eq h.pods l p default hl

theorem readPod_writePod_ne (h : Heap) (l q : Nat) (p : Pod)
    (hne : l ≠ q) : readPod (writePod h l p) q = readPod h q :=
  getD_set_ne h.pods l q p default hne

theorem readNode_writeNode_eq (h : Heap) (l : Nat) (c : NodeInfoCell)
    (hl : l < h.nodes.length) : readNode (writeNode h l c) l = c :=
  getD_set_eq h.nodes l c default hl

theorem readNode_writeNode_ne (h : Heap) (l q : Nat) (c : NodeInfoCell)
    (hne : l ≠ q) : readNode (writeNode h l c) q = readNode h q :=
  getD_set_ne h.nodes l q c default hne

@[simp] theorem podsLength_writePod (h : Heap) (l : Nat) (p : Pod) :
    (writePod h l p).pods.length = h.pods.length := by
  simp [writePod]

@[simp] theorem nodesLength_writeNode (h : Heap) (l : Nat) (c : NodeInfoCell) :
    (writeNode h l c).nodes.length = h.nodes.length := by
  simp [writeNode]

theorem writePod_readPod (h : Heap) (l : Nat) :
    writePod h l (readPod h l) = h := by
  cases h with
  | mk ns ps =>
    show Heap.mk ns (ps.set l (ps.getD l default)) = Heap.mk ns ps
    rw [set_getD_id]

@[simp] theorem clearNodeName_idem (p : Pod) :
    clearNodeName (clearNodeName p) = clearNodeName p := rfl

@[simp] theorem name_clearNodeName (p : Pod) :
    (clearNodeName p).name = p.name := rfl

@[simp] theorem nodeName_clearNodeName (p : Pod) :
    (clearNodeName p).nodeName = "" := rfl

theorem clearNodeName_of_clean {p : Pod} (hp : p.nodeName = "") :
    clearNodeName p = p := by
  cases p with
  | mk n nn => simp [clearNodeName] at hp ⊢; exact hp.symm

@[simp] theorem nodes_clearPodAt (h : Heap) (l : Nat) :
    (clearPodAt h l).nodes = h.nodes := rfl

@[simp] theorem podsLength_clearPodAt (h : Heap) (l : Nat) :
    (clearPodAt h l).pods.length = h.pods.length := by
  simp [clearPodAt]

theorem readPod_clearPodAt_self (h : Heap) (l : Nat) :
    readPod (clearPodAt h l) l = clearNodeName (readPod h l) := by
  by_cases hl : l < h.pods.length
  · exact readPod_writePod_eq h l _ hl
  · have hle : h.pods.length ≤ l := Nat.le_of_not_lt hl
    have h1 : readPod h l = default := getD_of_le h.pods l default hle
    have h2 : readPod (clearPodAt h l) l = default := by
      have : (clearPodAt h l).pods.length ≤ l := by
        rw [podsLength_clearPodAt]; exact hle
      exact getD_of_le _ l default this
    rw [h1, h2]
    decide

theorem readPod_clearPodAt_ne (h : Heap) (l q : Nat) (hne : l ≠ q) :
    readPod (clearPodAt h l) q = readPod h q :=
  readPod_writePod_ne h l q _ hne

theorem clearPodAt_of_clean {h : Heap} {l : Nat}
    (hc : (readPod h l).nodeName = "") : clearPodAt h l = h := by
  rw [clearPodAt, clearNodeName_of_clean hc, writePod_readPod]

theorem nodeName_readPod_clearPodAt (h : Heap) (l : Nat) :
    (readPod (clearPodAt h l) l).nodeName = "" := by
  rw [readPod_clearPodAt_self]; rfl

theorem clearPodAt_clearPodAt (h : Heap) (l : Nat) :
    clearPodAt (clearPodAt h l) l = clearPodAt h l :=
  clearPodAt_of_clean (nodeName_readPod_clearPodAt h l)

/-! ## The planner (src/rescheduler.go) -/

/-- Modelled from the spec: `podId` is a helper of this repository that is
not under `src/`; per the spec's error description it identifies the
unplaceable pod, so it is modelled as the pod's identity. -/
def podId (p : Pod) : String := p.name

/-- The error message built by `buildDrainPlan` (src/rescheduler.go:291)
for the first unplaceable pod. -/
def planMsg (p : Pod) : String :=
  "Pod " ++ podId p ++ " can't be rescheduled on any existing spot node."

/-- Modelled from the spec: `NodeInfoArray.CopyNodeInfos` lives in the
`nodes` package, which is not under `src/`.  Per the spec it returns "an
independent deep copy of the spot NodeInfoArray (the clone must not share
any mutable backing storage with the real array)": fresh `NodeInfo` cells
holding copies of the originals are allocated at the end of the node
store, and the locations of the fresh cells are returned.  The spec gives
it no failure behaviour, so the model is total. -/
def copyNodeInfos (h : Heap) (locs : List Nat) : List Nat × Heap :=
  ((List.range locs.length).map (fun i => h.nodes.length + i),
   { h with nodes := h.nodes ++ locs.map (readNode h) })

/-- Modelled from the spec: `NodeInfo.AddPod` lives in the `nodes`
package, which is not under `src/`.  Per the spec ("append the pod to
that NodeInfo's tentative pod set") it appends the pod pointer to the
`NodeInfo`'s pod list, in place. -/
def addPod (h : Heap) (l : Nat) (p : Nat) : Heap :=
  writeNode h l
    { readNode h l with pods := (readNode h l).pods ++ [p] }

/-- `findSpotNodeForPod` (src/rescheduler.go:261-275, identical duplicate
at 574-588): scan the `NodeInfo`s in order; for each one build the
simulated node state from the node and its pods, mutate the pod in place
with `pod.Spec.NodeName = ""`, and return the first `NodeInfo` accepted by
the predicate checker, or nil. -/
def findSpotNodeForPod (pred : FeasPred) (h : Heap) :
    List Nat → Nat → Option Nat × Heap
  | [], _ => (none, h)
  | l :: rest, podLoc =>
    if pred (readPod (clearPodAt h podLoc) podLoc) (readNode h l).nodeName
        ((readNode h l).pods.map (readPod (clearPodAt h podLoc))) then
      (some l, clearPodAt h podLoc)
    else
      findSpotNodeForPod pred (clearPodAt h podLoc) rest podLoc

/-- The pod loop of `buildDrainPlan` (src/rescheduler.go:287-296): for
each pod in order, find a spot node in the cloned array; on failure return
the error naming the pod, otherwise `AddPod` it to the chosen clone cell
and continue. -/
def planGo (pred : FeasPred) (nodePlan : List Nat) :
    Heap → List Nat → Except String Unit × Heap
  | h, [] => (Except.ok (), h)
  | h, p :: rest =>
    match findSpotNodeForPod pred h nodePlan p with
    | (none, h1) => (Except.error (planMsg (readPod h1 p)), h1)
    | (some l, h1) => planGo pred nodePlan (addPod h1 l p) rest

/-- `buildDrainPlan` (src/rescheduler.go:279-299): copy the spot
`NodeInfoArray`, then run the pod loop against the copy. -/
def buildDrainPlan (pred : FeasPred) (h : Heap)
    (nodeLocs podLocs : List Nat) : Except String Unit × Heap :=
  let c := copyNodeInfos h nodeLocs
  planGo pred c.1 c.2 podLocs

/-- The inline per-pod loop of the second program variant
(src/rescheduler.go:509-525): same scan, but an `unmoveablePods` flag with
an early `break` instead of an error return.  Returns the final flag. -/
def inlinePodLoop (pred : FeasPred) (nodePlan : List Nat) :
    Heap → List Nat → Bool × Heap
  | h, [] => (false, h)
  | h, p :: rest =>
    match findSpotNodeForPod pred h nodePlan p with
    | (none, h1) => (true, h1)
    | (some l, h1) => inlinePodLoop pred nodePlan (addPod h1 l p) rest

/-- Per-node planning of the second variant (src/rescheduler.go:489-525):
re-copy the spot `NodeInfoArray`, then run the inline pod loop. -/
def inlinePlanNode (pred : FeasPred) (h : Heap)
    (nodeLocs podLocs : List Nat) : Bool × Heap :=
  let c := copyNodeInfos h nodeLocs
  inlinePodLoop pred c.1 c.2 podLocs

/-! ## Value-level planning specification

`planSpec` below is a pure, pointer-free transcription of the spec's
description of the Drain-Plan Builder (spec §4.5): for each pod in input
order, place it on the first node of the cloned array that the predicate
accepts (`placeFirst`), the placement immediately joining that node's pod
set so that every later pod of the same plan is checked against the
accumulated occupancy; fail on the first unplaceable pod.  The heap-level
`buildDrainPlan` is proved to refine it. -/

/-- A node of the value-level plan: node name plus pod values. -/
structure PlanNode where
  nodeName : String
  pods : List Pod
  deriving Repr, DecidableEq, Inhabited

/-- The pod values a `NodeInfo` cell currently holds. -/
def readCell (h : Heap) (l : Nat) : PlanNode :=
  { nodeName := (readNode h l).nodeName
    pods := (readNode h l).pods.map (readPod h) }

/-- Append pod `p` to the first node accepted by the predicate, keeping
the array order; `none` if no node is feasible. -/
def placeFirst (pred : FeasPred) (p : Pod) :
    List PlanNode → Option (List PlanNode)
  | [] => none
  | n :: rest =>
    if pred p n.nodeName n.pods then
      some ({ n with pods := n.pods ++ [p] } :: rest)
    else
      (placeFirst pred p rest).map (fun ns => n :: ns)

/-- Greedy first-fit planning over values, exactly as the spec words it.
Returns the outcome, the final (tentatively filled) node array, and the
number of pods examined. -/
def planSpec (pred : FeasPred) :
    List PlanNode → List Pod → Except String Unit × List PlanNode × Nat
  | ns, [] => (Except.ok (), ns, 0)
  | ns, p :: ps =>
    match placeFirst pred (clearNodeName p) ns with
    | none => (Except.error (planMsg p), ns, 1)
    | some ns1 =>
      let r := planSpec pred ns1 ps
      (r.1, r.2.1, r.2.2 + 1)

/-! ## Helper lemmas about the planner -/

theorem getD_mem {α : Type} : ∀ (l : List α) (i : Nat) (d : α),
    i < l.length → l.getD i d ∈ l := by
  intro l
  induction l with
  | nil => intro i d hi; simp at hi
  | cons a as ih =>
    intro i d hi
    cases i with
    | zero => simp
    | succ j =>
      simp only [List.getD_cons_succ]
      exact List.mem_cons_of_mem a (ih j d (by simpa using hi))

theorem planMsg_congr {a b : Pod} (hn : a.name = b.name) :
    planMsg a = planMsg b := by
  simp [planMsg, podId, hn]

theorem name_eq_of_clear_eq {a b : Pod}
    (hc : clearNodeName a = clearNodeName b) : a.name = b.name := by
  have := congrArg Pod.name hc
  simpa using this

@[simp] theorem nodes_addPod (h : Heap) (l p : Nat) :
    (addPod h l p).nodes.length = h.nodes.length := by
  simp [addPod]

@[simp] theorem readPod_addPod (h : Heap) (l p q : Nat) :
    readPod (addPod h l p) q = readPod h q := rfl

@[simp] theorem pods_addPod (h : Heap) (l p : Nat) :
    (addPod h l p).pods = h.pods := rfl

theorem readNode_addPod_eq (h : Heap) (l p : Nat) (hl : l < h.nodes.length) :
    readNode (addPod h l p) l
      = { readNode h l with pods := (readNode h l).pods ++ [p] } :=
  readNode_writeNode_eq h l _ hl

theorem readNode_addPod_ne (h : Heap) (l p q : Nat) (hne : l ≠ q) :
    readNode (addPod h l p) q = readNode h q :=
  readNode_writeNode_ne h l q _ hne

theorem findSpot_nodes (pred : FeasPred) :
    ∀ (locs : List Nat) (h : Heap) (p : Nat),
    (findSpotNodeForPod pred h locs p).2.nodes = h.nodes := by
  intro locs
  induction locs with
  | nil => intro h p; rfl
  | cons l ls ih =>
    intro h p
    simp only [findSpotNodeForPod]
    by_cases hc : pred (readPod (clearPodAt h p) p) (readNode h l).nodeName
        ((readNode h l).pods.map (readPod (clearPodAt h p))) = true
    · rw [if_pos hc]
      rfl
    · rw [if_neg hc, ih]
      rfl

theorem findSpot_mem (pred : FeasPred) :
    ∀ (locs : List Nat) (h : Heap) (p l : Nat),
    (findSpotNodeForPod pred h locs p).1 = some l → l ∈ locs := by
  intro locs
  induction locs with
  | nil => intro h p l hl; simp [findSpotNodeForPod] at hl
  | cons l0 ls ih =>
    intro h p l hl
    simp only [findSpotNodeForPod] at hl
    by_cases hc : pred (readPod (clearPodAt h p) p) (readNode h l0).nodeName
        ((readNode h l0).pods.map (readPod (clearPodAt h p))) = true
    · rw [if_pos hc] at hl
      simp at hl
      simp [hl]
    · rw [if_neg hc] at hl
      exact List.mem_cons_of_mem l0 (ih _ p l hl)

/-- Scanning a nonempty array first clears the pod; with the pod already
cleared, re-clearing is the identity, so the whole scan can be computed
against the heap with the pod cleared once. -/
theorem findSpot_clearFirst (pred : FeasPred) (h : Heap) (l : Nat)
    (ls : List Nat) (p : Nat) :
    findSpotNodeForPod pred h (l :: ls) p
      = findSpotNodeForPod pred (clearPodAt h p) (l :: ls) p := by
  simp only [findSpotNodeForPod, clearPodAt_clearPodAt]
  rfl

/-- With the pod already cleared, the scan never changes the heap. -/
theorem findSpot_heap_clean (pred : FeasPred) :
    ∀ (locs : List Nat) (h : Heap) (p : Nat),
    (readPod h p).nodeName = "" →
    (findSpotNodeForPod pred h locs p).2 = h := by
  intro locs
  induction locs with
  | nil => intro h p _; rfl
  | cons l ls ih =>
    intro h p hcln
    have hfix : clearPodAt h p = h := clearPodAt_of_clean hcln
    simp only [findSpotNodeForPod, hfix]
    by_cases hc : pred (readPod h p) (readNode h l).nodeName
        ((readNode h l).pods.map (readPod h)) = true
    · rw [if_pos hc]
    · rw [if_neg hc]
      exact ih h p hcln

/-- On a nonempty array, the scan's final heap is exactly the input heap
with the pod's `Spec.NodeName` cleared. -/
theorem findSpot_heap_cons (pred : FeasPred) (h : Heap) (l : Nat)
    (ls : List Nat) (p : Nat) :
    (findSpotNodeForPod pred h (l :: ls) p).2 = clearPodAt h p := by
  rw [findSpot_clearFirst]
  exact findSpot_heap_clean pred (l :: ls) (clearPodAt h p) p
    (nodeName_readPod_clearPodAt h p)

/-- Clearing a pod that is either absent from a cell's pod list or already
cleared does not change the cell's observable value. -/
theorem readCell_clearPodAt (h : Heap) (l p : Nat)
    (hstab : ∀ q ∈ (readNode h l).pods, q = p → (readPod h q).nodeName = "") :
    readCell (clearPodAt h p) l = readCell h l := by
  simp only [readCell, nodes_clearPodAt]
  have hpods : (readNode h l).pods.map (readPod (clearPodAt h p))
      = (readNode h l).pods.map (readPod h) := by
    apply List.map_congr_left
    intro q hq
    by_cases hqp : p = q
    · subst hqp
      have hcln : (readPod h p).nodeName = "" := hstab p hq rfl
      rw [readPod_clearPodAt_self, clearNodeName_of_clean hcln]
    · exact readPod_clearPodAt_ne h p q hqp
  have hnode : readNode (clearPodAt h p) l = readNode h l := rfl
  rw [hnode, hpods]

/-- One scan of the cloned array against the value-level `placeFirst`:
with the pod already cleared, the scan does not change the heap, it
succeeds exactly when `placeFirst` does, the chosen location is the one at
the position `placeFirst` fills, and after `AddPod` the clone cells read
back as `placeFirst`'s result. -/
theorem scanStep (pred : FeasPred) :
    ∀ (locs : List Nat) (ns : List PlanNode) (h : Heap) (p : Nat),
    (readPod h p).nodeName = "" →
    locs.Nodup →
    (∀ l ∈ locs, l < h.nodes.length) →
    locs.length = ns.length →
    (∀ i, i < locs.length → readCell h (locs.getD i 0) = ns.getD i default) →
    (findSpotNodeForPod pred h locs p).2 = h ∧
    (((findSpotNodeForPod pred h locs p).1 = none ∧
        placeFirst pred (readPod h p) ns = none) ∨
      (∃ l ns1, (findSpotNodeForPod pred h locs p).1 = some l ∧
        placeFirst pred (readPod h p) ns = some ns1 ∧
        l ∈ locs ∧ ns1.length = ns.length ∧
        (∀ i, i < locs.length →
          readCell (addPod h l p) (locs.getD i 0) = ns1.getD i default))) := by
  intro locs
  induction locs with
  | nil =>
    intro ns h p _ _ _ hlen _
    have hns : ns = [] := by
      cases ns with
      | nil => rfl
      | cons a as => simp at hlen
    subst hns
    exact ⟨rfl, Or.inl ⟨rfl, rfl⟩⟩
  | cons l ls ih =>
    intro ns h p hcln hnd hval hlen hcells
    obtain ⟨n, ns0, rfl⟩ : ∃ n ns0, ns = n :: ns0 := by
      cases ns with
      | nil => simp at hlen
      | cons a as => exact ⟨a, as, rfl⟩
    have hfix : clearPodAt h p = h := clearPodAt_of_clean hcln
    have hcell0 : readCell h l = n := by
      have := hcells 0 (by simp)
      simpa using this
    have hname : (readNode h l).nodeName = n.nodeName := by
      have := congrArg PlanNode.nodeName hcell0
      simpa [readCell] using this
    have hpods : (readNode h l).pods.map (readPod h) = n.pods := by
      have := congrArg PlanNode.pods hcell0
      simpa [readCell] using this
    have hnd0 := List.nodup_cons.mp hnd
    have hlval : l < h.nodes.length := hval l (by simp)
    simp only [findSpotNodeForPod, hfix, hname, hpods, placeFirst]
    by_cases hc : pred (readPod h p) n.nodeName n.pods = true
    · rw [if_pos hc, if_pos hc]
      refine ⟨rfl, Or.inr ⟨l, { n with pods := n.pods ++ [readPod h p] } :: ns0,
        rfl, rfl, by simp, by simp, ?_⟩⟩
      intro i hi
      cases i with
      | zero =>
        simp only [List.getD_cons_zero]
        have hnode : readNode (addPod h l p) l
            = NodeInfoCell.mk (readNode h l).nodeName ((readNode h l).pods ++ [p]) :=
          readNode_addPod_eq h l p hlval
        have h1 : (readNode h l).pods.map (readPod (addPod h l p))
            = (readNode h l).pods.map (readPod h) :=
          List.map_congr_left (fun q _ => readPod_addPod h l p q)
        simp only [readCell, hnode, List.map_append, h1, hpods, hname,
          List.map_cons, List.map_nil, readPod_addPod]
      | succ j =>
        have hj : j < ls.length := by simpa using hi
        have hmem : ls.getD j 0 ∈ ls := getD_mem ls j 0 hj
        have hne : l ≠ ls.getD j 0 := fun hc0 => hnd0.1 (hc0 ▸ hmem)
        simp only [List.getD_cons_succ]
        have hnode : readNode (addPod h l p) (ls.getD j 0) = readNode h (ls.getD j 0) :=
          readNode_addPod_ne h l p _ hne
        have : readCell (addPod h l p) (ls.getD j 0) = readCell h (ls.getD j 0) := by
          simp only [readCell, hnode]
          rfl
        rw [this]
        have := hcells (j + 1) (by simpa using hj)
        simpa using this
    · rw [if_neg hc, if_neg hc]
      have ihls := ih ns0 h p hcln hnd0.2
        (fun x hx => hval x (List.mem_cons_of_mem l hx))
        (by simpa using hlen)
        (fun i hi => by
          have := hcells (i + 1) (by simpa using hi)
          simpa using this)
      obtain ⟨hheap, hdisj⟩ := ihls
      refine ⟨hheap, ?_⟩
      rcases hdisj with ⟨hn1, hn2⟩ | ⟨l2, ns1, hs1, hs2, hs3, hs4, hs5⟩
      · exact Or.inl ⟨hn1, by simp [hn2]⟩
      · refine Or.inr ⟨l2, n :: ns1, hs1, by simp [hs2],
          List.mem_cons_of_mem l hs3, by simp [hs4], ?_⟩
        intro i hi
        cases i with
        | zero =>
          simp only [List.getD_cons_zero]
          have hne : l2 ≠ l := fun hc0 => hnd0.1 (hc0 ▸ hs3)
          have hnode : readNode (addPod h l2 p) l = readNode h l :=
            readNode_addPod_ne h l2 p l hne
          have : readCell (addPod h l2 p) l = readCell h l := by
            simp only [readCell, hnode]
            rfl
          rw [this, hcell0]
        | succ j =>
          have hj : j < ls.length := by simpa using hi
          simp only [List.getD_cons_succ]
          exact hs5 j hj

theorem readNode_eq_of_nodes {h1 h2 : Heap} (he : h1.nodes = h2.nodes)
    (l : Nat) : readNode h1 l = readNode h2 l := by
  simp [readNode, he]

/-- The pod loop only writes `NodeInfo` cells that belong to the clone:
every other cell reads back unchanged, whatever the outcome. -/
theorem planGo_frame (pred : FeasPred) :
    ∀ (psLocs : List Nat) (h : Heap) (cloneLocs : List Nat) (l : Nat),
    l ∉ cloneLocs →
    readNode (planGo pred cloneLocs h psLocs).2 l = readNode h l := by
  intro psLocs
  induction psLocs with
  | nil => intro h cloneLocs l _; rfl
  | cons p rest ih =>
    intro h cloneLocs l hl
    rcases hfs : findSpotNodeForPod pred h cloneLocs p with ⟨fst, snd⟩
    have hsnd : snd.nodes = h.nodes := by
      have h1 := congrArg (fun x : Option Nat × Heap => x.2.nodes) hfs
      simp only at h1
      rw [← h1]
      exact findSpot_nodes pred cloneLocs h p
    cases fst with
    | none =>
      simp only [planGo, hfs]
      exact readNode_eq_of_nodes hsnd l
    | some l2 =>
      simp only [planGo, hfs]
      have hl2 : l2 ∈ cloneLocs := by
        apply findSpot_mem pred cloneLocs h p l2
        rw [hfs]
      have hne : l2 ≠ l := fun hc => hl (hc ▸ hl2)
      rw [ih (addPod snd l2 p) cloneLocs l hl]
      rw [readNode_addPod_ne snd l2 p l hne]
      exact readNode_eq_of_nodes hsnd l

/-- The pod loop of `buildDrainPlan` computes the value-level greedy plan
`planSpec`: same outcome (including the error message naming the first
unplaceable pod), the clone cells read back as `planSpec`'s final node
array, and pods beyond the examined prefix are untouched. -/
theorem planGo_spec (pred : FeasPred) :
    ∀ (psLocs : List Nat) (psVals : List Pod) (h : Heap)
      (cloneLocs : List Nat) (ns : List PlanNode),
    psLocs.Nodup →
    cloneLocs.Nodup →
    (∀ l ∈ cloneLocs, l < h.nodes.length) →
    cloneLocs.length = ns.length →
    (∀ i, i < cloneLocs.length →
      readCell h (cloneLocs.getD i 0) = ns.getD i default) →
    psLocs.length = psVals.length →
    (∀ j, j < psLocs.length →
      clearNodeName (readPod h (psLocs.getD j 0))
        = clearNodeName (psVals.getD j default)) →
    (∀ l ∈ cloneLocs, ∀ q ∈ (readNode h l).pods,
      q ∈ psLocs → (readPod h q).nodeName = "") →
    (planGo pred cloneLocs h psLocs).1 = (planSpec pred ns psVals).1 ∧
    (∀ i, i < cloneLocs.length →
      readCell (planGo pred cloneLocs h psLocs).2 (cloneLocs.getD i 0)
        = (planSpec pred ns psVals).2.1.getD i default) ∧
    (∀ j, (planSpec pred ns psVals).2.2 ≤ j → j < psLocs.length →
      readPod (planGo pred cloneLocs h psLocs).2 (psLocs.getD j 0)
        = readPod h (psLocs.getD j 0)) := by
  intro psLocs
  induction psLocs with
  | nil =>
    intro psVals h cloneLocs ns _ _ _ _ hcells hplen _ _
    obtain rfl : psVals = [] := by
      cases psVals with
      | nil => rfl
      | cons a as => simp at hplen
    exact ⟨rfl, fun i hi => hcells i hi, fun j hj hj2 => by simp at hj2⟩
  | cons p rest ih =>
    intro psVals h cloneLocs ns hnd hcnd hval hclen hcells hplen hvals hstab
    obtain ⟨v, vs, rfl⟩ : ∃ v vs, psVals = v :: vs := by
      cases psVals with
      | nil => simp at hplen
      | cons a as => exact ⟨a, as, rfl⟩
    have hndp := List.nodup_cons.mp hnd
    have hv0 : clearNodeName (readPod h p) = clearNodeName v := by
      have := hvals 0 (by simp)
      simpa using this
    cases cloneLocs with
    | nil =>
      obtain rfl : ns = [] := by
        cases ns with
        | nil => rfl
        | cons a as => simp at hclen
      have hmsg : planMsg (readPod h p) = planMsg v :=
        planMsg_congr (name_eq_of_clear_eq hv0)
      refine ⟨?_, ?_, ?_⟩
      · simp only [planGo, findSpotNodeForPod, planSpec, placeFirst]
        rw [hmsg]
      · intro i hi; simp at hi
      · intro j hj hj2
        rfl
    | cons cl cls =>
      have hclear := findSpot_clearFirst pred h cl cls p
      have hcln1 : (readPod (clearPodAt h p) p).nodeName = "" :=
        nodeName_readPod_clearPodAt h p
      have hval1 : ∀ l ∈ cl :: cls, l < (clearPodAt h p).nodes.length := by
        intro l hlmem
        simpa using hval l hlmem
      have hcells1 : ∀ i, i < (cl :: cls).length →
          readCell (clearPodAt h p) ((cl :: cls).getD i 0) = ns.getD i default := by
        intro i hi
        have hloc : (cl :: cls).getD i 0 ∈ cl :: cls := getD_mem _ i 0 hi
        have hstab1 : ∀ q ∈ (readNode h ((cl :: cls).getD i 0)).pods,
            q = p → (readPod h q).nodeName = "" := by
          intro q hq hqp
          exact hstab _ hloc q hq (hqp ▸ List.mem_cons_self p rest)
        rw [readCell_clearPodAt h _ p hstab1]
        exact hcells i hi
      have hpv : readPod (clearPodAt h p) p = clearNodeName v := by
        rw [readPod_clearPodAt_self, hv0]
      obtain ⟨hsheap, hsdisj⟩ :=
        scanStep pred (cl :: cls) ns (clearPodAt h p) p hcln1 hcnd hval1 hclen hcells1
      rcases hsdisj with ⟨hn1, hn2⟩ | ⟨l2, ns1, hs1, hs2, hs3, hs4, hs5⟩
      · -- no feasible node for this pod: both sides fail with the pod's id
        have hpair : findSpotNodeForPod pred (clearPodAt h p) (cl :: cls) p
            = (none, clearPodAt h p) :=
          Prod.ext hn1 hsheap
        rw [hpv] at hn2
        have hmsg : planMsg (readPod (clearPodAt h p) p) = planMsg v := by
          rw [hpv]
          exact planMsg_congr (by simp)
        refine ⟨?_, ?_, ?_⟩
        · simp only [planGo, hclear, hpair, planSpec, hn2]
          rw [hmsg]
        · intro i hi
          simp only [planGo, hclear, hpair, planSpec, hn2]
          exact hcells1 i hi
        · intro j hj hj2
          simp only [planGo, hclear, hpair]
          simp only [planSpec, hn2] at hj
          obtain ⟨j0, rfl⟩ : ∃ j0, j = j0 + 1 := ⟨j - 1, by omega⟩
          have hj0 : j0 < rest.length := by simpa using hj2
          have hmem : rest.getD j0 0 ∈ rest := getD_mem rest j0 0 hj0
          have hne : p ≠ rest.getD j0 0 := fun hc => hndp.1 (hc ▸ hmem)
          simp only [List.getD_cons_succ]
          exact readPod_clearPodAt_ne h p _ hne
      · -- the pod fits: both sides place it on the same node and recurse
        have hpair : findSpotNodeForPod pred (clearPodAt h p) (cl :: cls) p
            = (some l2, clearPodAt h p) :=
          Prod.ext hs1 hsheap
        rw [hpv] at hs2
        have hl2v : l2 < (clearPodAt h p).nodes.length := hval1 l2 hs3
        have hreadPods : ∀ x ∈ rest,
            readPod (addPod (clearPodAt h p) l2 p) x = readPod h x := by
          intro x hx
          have hne : p ≠ x := fun hc => hndp.1 (hc ▸ hx)
          rw [readPod_addPod, readPod_clearPodAt_ne h p x hne]
        have ihall := ih vs (addPod (clearPodAt h p) l2 p) (cl :: cls) ns1
          hndp.2 hcnd
          (by intro l hlmem; simpa using hval l hlmem)
          (by rw [hclen, hs4])
          hs5
          (by simpa using hplen)
          (by
            intro j hj
            have hj1 := hvals (j + 1) (by simpa using hj)
            simp only [List.getD_cons_succ] at hj1
            rw [hreadPods _ (getD_mem rest j 0 hj)]
            exact hj1)
          (by
            intro l hlmem q hq hqrest
            have hqp : p ≠ q := fun hc => hndp.1 (hc ▸ hqrest)
            have hq0 : q ∈ (readNode h l).pods := by
              by_cases hll : l2 = l
              · subst hll
                rw [readNode_addPod_eq _ l2 p hl2v] at hq
                simp only [List.mem_append, List.mem_singleton] at hq
                rcases hq with hq | hq
                · simpa using hq
                · exact absurd hq.symm hqp
              · rw [readNode_addPod_ne _ l2 p l hll] at hq
                simpa using hq
            have := hstab l hlmem q hq0 (List.mem_cons_of_mem p hqrest)
            rw [readPod_addPod, readPod_clearPodAt_ne h p q hqp]
            exact this)
        obtain ⟨ih1, ih2, ih3⟩ := ihall
        refine ⟨?_, ?_, ?_⟩
        · simp only [planGo, hclear, hpair, planSpec, hs2]
          exact ih1
        · intro i hi
          simp only [planGo, hclear, hpair, planSpec, hs2]
          exact ih2 i hi
        · intro j hj hj2
          simp only [planGo, hclear, hpair]
          simp only [planSpec, hs2] at hj
          obtain ⟨j0, rfl⟩ : ∃ j0, j = j0 + 1 := ⟨j - 1, by omega⟩
          have hj0 : j0 < rest.length := by simpa using hj2
          simp only [List.getD_cons_succ]
          rw [ih3 j0 (by omega) hj0]
          exact hreadPods _ (getD_mem rest j0 0 hj0)

/-! ## Properties of the clone produced by `copyNodeInfos` -/

theorem getD_map_lt {α β : Type} (f : α → β) :
    ∀ (l : List α) (i : Nat) (d : β) (d0 : α), i < l.length →
    (l.map f).getD i d = f (l.getD i d0) := by
  intro l
  induction l with
  | nil => intro i d d0 hi; simp at hi
  | cons a as ih =>
    intro i d d0 hi
    cases i with
    | zero => rfl
    | succ j =>
      simp only [List.map_cons, List.getD_cons_succ]
      exact ih j d d0 (by simpa using hi)

theorem getD_eq_getElem {α : Type} (l : List α) (i : Nat) (d : α)
    (hi : i < l.length) : l.getD i d = l[i] := by
  simp [List.getD, List.getElem?_eq_getElem hi]

theorem range_getD (n i : Nat) (hi : i < n) : (List.range n).getD i 0 = i := by
  rw [getD_eq_getElem _ i 0 (by simpa using hi)]
  simp

@[simp] theorem copy_pods (h : Heap) (locs : List Nat) :
    (copyNodeInfos h locs).2.pods = h.pods := rfl

@[simp] theorem copy_readPod (h : Heap) (locs : List Nat) (x : Nat) :
    readPod (copyNodeInfos h locs).2 x = readPod h x := rfl

theorem copy_nodesLength (h : Heap) (locs : List Nat) :
    (copyNodeInfos h locs).2.nodes.length = h.nodes.length + locs.length := by
  simp [copyNodeInfos]

theorem copy_fst_length (h : Heap) (locs : List Nat) :
    (copyNodeInfos h locs).1.length = locs.length := by
  simp [copyNodeInfos]

theorem copy_fst_getD (h : Heap) (locs : List Nat) (i : Nat)
    (hi : i < locs.length) :
    (copyNodeInfos h locs).1.getD i 0 = h.nodes.length + i := by
  show (((List.range locs.length).map
    (fun j => h.nodes.length + j)).getD i 0) = h.nodes.length + i
  rw [getD_map_lt _ _ i 0 0 (by simpa using hi), range_getD _ i hi]

theorem copy_fst_nodup (h : Heap) (locs : List Nat) :
    (copyNodeInfos h locs).1.Nodup := by
  refine List.Nodup.map ?_ (List.nodup_range _)
  intro a b hab
  have hab2 : h.nodes.length + a = h.nodes.length + b := hab
  omega

theorem copy_fst_mem (h : Heap) (locs : List Nat) (l : Nat)
    (hl : l ∈ (copyNodeInfos h locs).1) :
    h.nodes.length ≤ l ∧ l < h.nodes.length + locs.length := by
  obtain ⟨i, hi, rfl⟩ := List.mem_map.mp hl
  have : i < locs.length := List.mem_range.mp hi
  omega

theorem copy_readNode_low (h : Heap) (locs : List Nat) (l : Nat)
    (hl : l < h.nodes.length) :
    readNode (copyNodeInfos h locs).2 l = readNode h l := by
  show (h.nodes ++ locs.map (readNode h)).getD l default = h.nodes.getD l default
  exact getD_append_lt _ _ l default hl

theorem copy_readNode_clone (h : Heap) (locs : List Nat) (i : Nat)
    (hi : i < locs.length) :
    readNode (copyNodeInfos h locs).2 (h.nodes.length + i)
      = readNode h (locs.getD i 0) := by
  show (h.nodes ++ locs.map (readNode h)).getD (h.nodes.length + i) default
    = readNode h (locs.getD i 0)
  rw [getD_append_add]
  exact getD_map_lt (readNode h) locs i default 0 hi

theorem copy_readCell_clone (h : Heap) (locs : List Nat) (i : Nat)
    (hi : i < locs.length) :
    readCell (copyNodeInfos h locs).2 (h.nodes.length + i)
      = readCell h (locs.getD i 0) := by
  simp only [readCell, copy_readNode_clone h locs i hi]
  rfl

/-- Bridge: `buildDrainPlan` against the real heap computes `planSpec` on
the values of the spot nodes and candidate pods.  The hypotheses say the
candidate pods are pairwise-distinct objects (they come off one node) and
none of them already sits on a spot node. -/
theorem buildDrainPlan_planSpec (pred : FeasPred) (h : Heap)
    (nodeLocs podLocs : List Nat)
    (hnd : podLocs.Nodup)
    (hdisj : ∀ l ∈ nodeLocs, ∀ q ∈ (readNode h l).pods, q ∉ podLocs) :
    (buildDrainPlan pred h nodeLocs podLocs).1
      = (planSpec pred (nodeLocs.map (readCell h)) (podLocs.map (readPod h))).1 ∧
    (∀ i, i < nodeLocs.length →
      readCell (buildDrainPlan pred h nodeLocs podLocs).2 (h.nodes.length + i)
        = (planSpec pred (nodeLocs.map (readCell h))
            (podLocs.map (readPod h))).2.1.getD i default) ∧
    (∀ j, (planSpec pred (nodeLocs.map (readCell h))
        (podLocs.map (readPod h))).2.2 ≤ j → j < podLocs.length →
      readPod (buildDrainPlan pred h nodeLocs podLocs).2 (podLocs.getD j 0)
        = readPod h (podLocs.getD j 0)) := by
  have hmain := planGo_spec pred podLocs (podLocs.map (readPod h))
    (copyNodeInfos h nodeLocs).2 (copyNodeInfos h nodeLocs).1
    (nodeLocs.map (readCell h))
    hnd
    (copy_fst_nodup h nodeLocs)
    (by
      intro l hl
      have := (copy_fst_mem h nodeLocs l hl).2
      rw [copy_nodesLength]
      exact this)
    (by rw [copy_fst_length]; simp)
    (by
      intro i hi
      have hi2 : i < nodeLocs.length := by rwa [copy_fst_length] at hi
      rw [copy_fst_getD h nodeLocs i hi2, copy_readCell_clone h nodeLocs i hi2]
      rw [getD_map_lt (readCell h) nodeLocs i default 0 hi2])
    (by simp)
    (by
      intro j hj
      rw [copy_readPod, getD_map_lt (readPod h) podLocs j default 0 hj])
    (by
      intro l hl q hq hqps
      obtain ⟨i, hi, rfl⟩ := List.mem_map.mp hl
      have hi2 : i < nodeLocs.length := List.mem_range.mp hi
      have hmem : nodeLocs.getD i 0 ∈ nodeLocs := getD_mem nodeLocs i 0 hi2
      have : readNode (copyNodeInfos h nodeLocs).2 (h.nodes.length + i)
          = readNode h (nodeLocs.getD i 0) := copy_readNode_clone h nodeLocs i hi2
      rw [this] at hq
      exact absurd hqps (hdisj _ hmem q hq))
  obtain ⟨h1, h2, h3⟩ := hmain
  refine ⟨h1, ?_, ?_⟩
  · intro i hi
    have := h2 i (by rwa [copy_fst_length])
    rwa [copy_fst_getD h nodeLocs i hi] at this
  · intro j hj hj2
    have := h3 j hj hj2
    rwa [copy_readPod] at this

/-! ## Cleanliness of examined pods (for the in-place `NodeName` wipe) -/

theorem findSpot_snd_clean (pred : FeasPred) (locs : List Nat) (h : Heap)
    (q p : Nat) (hcln : (readPod h p).nodeName = "") :
    (readPod (findSpotNodeForPod pred h locs q).2 p).nodeName = "" := by
  cases locs with
  | nil => exact hcln
  | cons cl cls =>
    rw [findSpot_heap_cons]
    by_cases hqp : q = p
    · subst hqp
      exact nodeName_readPod_clearPodAt h q
    · rw [readPod_clearPodAt_ne h q p hqp]
      exact hcln

/-- Once a pod's `NodeName` is cleared, the rest of the plan loop never
un-clears it: the only pod writes are further clears. -/
theorem planGo_clean (pred : FeasPred) (nodePlan : List Nat) :
    ∀ (psLocs : List Nat) (h : Heap) (p : Nat),
    (readPod h p).nodeName = "" →
    (readPod (planGo pred nodePlan h psLocs).2 p).nodeName = "" := by
  intro psLocs
  induction psLocs with
  | nil => intro h p hcln; exact hcln
  | cons q rest ih =>
    intro h p hcln
    rcases hfs : findSpotNodeForPod pred h nodePlan q with ⟨fst, snd⟩
    have hsnd : (readPod snd p).nodeName = "" := by
      have := findSpot_snd_clean pred nodePlan h q p hcln
      rw [hfs] at this
      exact this
    cases fst with
    | none => simpa only [planGo, hfs] using hsnd
    | some l2 =>
      simp only [planGo, hfs]
      exact ih (addPod snd l2 q) p (by simpa using hsnd)

/-- The first pod handed to a nonempty scan ends up cleared in the plan
loop's final heap, whatever the outcome. -/
theorem planGo_head_clean (pred : FeasPred) (cl : Nat) (cls : List Nat)
    (h : Heap) (p : Nat) (rest : List Nat) :
    (readPod (planGo pred (cl :: cls) h (p :: rest)).2 p).nodeName = "" := by
  rcases hfs : findSpotNodeForPod pred h (cl :: cls) p with ⟨fst, snd⟩
  have hsnd : (readPod snd p).nodeName = "" := by
    have h2 := congrArg (fun x : Option Nat × Heap => x.2) hfs
    simp only at h2
    rw [← h2, findSpot_heap_cons]
    exact nodeName_readPod_clearPodAt h p
  cases fst with
  | none => simpa only [planGo, hfs] using hsnd
  | some l2 =>
    simp only [planGo, hfs]
    exact planGo_clean pred (cl :: cls) rest (addPod snd l2 p) p (by simpa using hsnd)

/-- On a successful plan against a nonempty spot array, every candidate
pod ends up with `NodeName` cleared in the final heap. -/
theorem planGo_ok_clean (pred : FeasPred) (cl : Nat) (cls : List Nat) :
    ∀ (psLocs : List Nat) (h : Heap),
    (planGo pred (cl :: cls) h psLocs).1 = Except.ok () →
    ∀ p ∈ psLocs, (readPod (planGo pred (cl :: cls) h psLocs).2 p).nodeName = "" := by
  intro psLocs
  induction psLocs with
  | nil => intro h _ p hp; simp at hp
  | cons q rest ih =>
    intro h hok p hp
    rcases hfs : findSpotNodeForPod pred h (cl :: cls) q with ⟨fst, snd⟩
    have hsnd : snd = clearPodAt h q := by
      have h2 := congrArg (fun x : Option Nat × Heap => x.2) hfs
      simp only at h2
      rw [← h2, findSpot_heap_cons]
    cases fst with
    | none =>
      rw [show (planGo pred (cl :: cls) h (q :: rest)).1
        = Except.error (planMsg (readPod snd q)) by simp only [planGo, hfs]] at hok
      exact absurd hok (by simp)
    | some l2 =>
      simp only [planGo, hfs] at hok ⊢
      rcases List.mem_cons.mp hp with rfl | hp2
      · apply planGo_clean
        rw [readPod_addPod, hsnd]
        exact nodeName_readPod_clearPodAt h p
      · exact ih (addPod snd l2 q) hok p hp2

/-- The per-pod loop of the first variant and the inline flag loop of the
second variant run the same recursion; the error return corresponds to the
`unmoveablePods` flag. -/
theorem planGo_inlinePodLoop (pred : FeasPred) (nodePlan : List Nat) :
    ∀ (psLocs : List Nat) (h : Heap),
    ((planGo pred nodePlan h psLocs).1 = Except.ok ()
      ↔ (inlinePodLoop pred nodePlan h psLocs).1 = false) ∧
    (planGo pred nodePlan h psLocs).2 = (inlinePodLoop pred nodePlan h psLocs).2 := by
  intro psLocs
  induction psLocs with
  | nil => intro h; exact ⟨⟨fun _ => rfl, fun _ => rfl⟩, rfl⟩
  | cons p rest ih =>
    intro h
    rcases hfs : findSpotNodeForPod pred h nodePlan p with ⟨fst, snd⟩
    cases fst with
    | none =>
      simp only [planGo, inlinePodLoop, hfs]
      refine ⟨⟨fun hcon => ?_, fun hcon => ?_⟩, trivial⟩
      · exact absurd hcon (by simp)
      · exact absurd hcon (by simp)
    | some l2 =>
      simp only [planGo, inlinePodLoop, hfs]
      exact ih (addPod snd l2 p)

/-! ## Concrete fixtures used by witnesses and counterexamples -/

/-- A predicate accepting a node only while it holds no pods: each spot
node has room for exactly one pod. -/
def predOneSlot : FeasPred := fun _ _ pods => pods.length == 0

/-- A predicate accepting every node. -/
def predAny : FeasPred := fun _ _ _ => true

/-- Two empty spot nodes and two candidate pods bound to an on-demand
node. -/
def hTwoSpots : Heap :=
  { nodes := [{ nodeName := "s1", pods := [] }, { nodeName := "s2", pods := [] }]
    pods := [{ name := "a", nodeName := "od" }, { name := "b", nodeName := "od" }] }

/-- A cluster with no spot nodes and one candidate pod. -/
def hNoSpots : Heap :=
  { nodes := [], pods := [{ name := "pod-a", nodeName := "node-1" }] }

/-! ## Claim theorems: the planner -/

/-- C1: `buildDrainPlan` operates only on an independent copy of the spot
`NodeInfoArray`: whether it returns success or an error, every `NodeInfo`
of the real (uncloned) array — its node and its pod set — reads back
unchanged after the call, so no tentative placement is observable outside
it.  (`CopyNodeInfos` is modelled from the spec; see `copyNodeInfos`.) -/
theorem c1_plan_leaves_real_array_unchanged (pred : FeasPred) (h : Heap)
    (nodeLocs podLocs : List Nat)
    (hval : ∀ l ∈ nodeLocs, l < h.nodes.length) :
    ∀ l ∈ nodeLocs,
      readNode (buildDrainPlan pred h nodeLocs podLocs).2 l = readNode h l := by
  intro l hl
  have hlv := hval l hl
  have hnotin : l ∉ (copyNodeInfos h nodeLocs).1 := by
    intro hmem
    have := (copy_fst_mem h nodeLocs l hmem).1
    omega
  show readNode (planGo pred (copyNodeInfos h nodeLocs).1
    (copyNodeInfos h nodeLocs).2 podLocs).2 l = readNode h l
  rw [planGo_frame pred podLocs (copyNodeInfos h nodeLocs).2
    (copyNodeInfos h nodeLocs).1 l hnotin]
  exact copy_readNode_low h nodeLocs l hlv

theorem c1_witness :
    readNode (buildDrainPlan predOneSlot hTwoSpots [0, 1] [0, 1]).2 0
        = readNode hTwoSpots 0 ∧
    readNode (buildDrainPlan predOneSlot hTwoSpots [0, 1] [0, 1]).2 1
        = readNode hTwoSpots 1 :=
  ⟨c1_plan_leaves_real_array_unchanged predOneSlot hTwoSpots [0, 1] [0, 1]
      (by decide) 0 (by decide),
   c1_plan_leaves_real_array_unchanged predOneSlot hTwoSpots [0, 1] [0, 1]
      (by decide) 1 (by decide)⟩

/-- C2: the plan loop is greedy first-fit with accumulation: its outcome
and the final contents of the clone cells are exactly those of `planSpec`,
which places each pod, in input order, on the first node of the cloned
array accepted by the predicate and appends it there immediately, so every
later pod of the same plan is checked against occupancy that includes the
earlier placements.  The clone cell for the `i`-th spot node lives at
location `h.nodes.length + i`. -/
theorem c2_first_fit_accumulation (pred : FeasPred) (h : Heap)
    (nodeLocs podLocs : List Nat)
    (hnd : podLocs.Nodup)
    (hdisj : ∀ l ∈ nodeLocs, ∀ q ∈ (readNode h l).pods, q ∉ podLocs) :
    (buildDrainPlan pred h nodeLocs podLocs).1
      = (planSpec pred (nodeLocs.map (readCell h)) (podLocs.map (readPod h))).1 ∧
    (∀ i, i < nodeLocs.length →
      readCell (buildDrainPlan pred h nodeLocs podLocs).2 (h.nodes.length + i)
        = (planSpec pred (nodeLocs.map (readCell h))
            (podLocs.map (readPod h))).2.1.getD i default) :=
  ⟨(buildDrainPlan_planSpec pred h nodeLocs podLocs hnd hdisj).1,
   (buildDrainPlan_planSpec pred h nodeLocs podLocs hnd hdisj).2.1⟩

theorem c2_witness :
    ((buildDrainPlan predOneSlot hTwoSpots [0, 1] [0, 1]).1
      = (planSpec predOneSlot ([0, 1].map (readCell hTwoSpots))
          ([0, 1].map (readPod hTwoSpots))).1) ∧
    (readCell (buildDrainPlan predOneSlot hTwoSpots [0, 1] [0, 1]).2
          (hTwoSpots.nodes.length + 0)
        = (planSpec predOneSlot ([0, 1].map (readCell hTwoSpots))
            ([0, 1].map (readPod hTwoSpots))).2.1.getD 0 default) ∧
    (readCell (buildDrainPlan predOneSlot hTwoSpots [0, 1] [0, 1]).2
          (hTwoSpots.nodes.length + 1)
        = (planSpec predOneSlot ([0, 1].map (readCell hTwoSpots))
            ([0, 1].map (readPod hTwoSpots))).2.1.getD 1 default) :=
  ⟨(c2_first_fit_accumulation predOneSlot hTwoSpots [0, 1] [0, 1]
      (by decide) (by decide)).1,
   (c2_first_fit_accumulation predOneSlot hTwoSpots [0, 1] [0, 1]
      (by decide) (by decide)).2 0 (by decide),
   (c2_first_fit_accumulation predOneSlot hTwoSpots [0, 1] [0, 1]
      (by decide) (by decide)).2 1 (by decide)⟩

/-- C3: `buildDrainPlan` returns exactly what the greedy specification
returns: `Except.ok ()` when and only when every pod was assigned a
destination, and otherwise the error naming the first unplaceable pod
(`planSpec`'s error is by construction `planMsg` of the first pod with no
feasible node).  Moreover no pod after the failing one is evaluated: the
pods beyond the examined prefix (of length `planSpec`'s counter) are
untouched in the final heap. -/
theorem c3_fail_fast_first_unplaceable (pred : FeasPred) (h : Heap)
    (nodeLocs podLocs : List Nat)
    (hnd : podLocs.Nodup)
    (hdisj : ∀ l ∈ nodeLocs, ∀ q ∈ (readNode h l).pods, q ∉ podLocs) :
    (buildDrainPlan pred h nodeLocs podLocs).1
      = (planSpec pred (nodeLocs.map (readCell h)) (podLocs.map (readPod h))).1 ∧
    (∀ j, (planSpec pred (nodeLocs.map (readCell h))
        (podLocs.map (readPod h))).2.2 ≤ j → j < podLocs.length →
      readPod (buildDrainPlan pred h nodeLocs podLocs).2 (podLocs.getD j 0)
        = readPod h (podLocs.getD j 0)) :=
  ⟨(buildDrainPlan_planSpec pred h nodeLocs podLocs hnd hdisj).1,
   (buildDrainPlan_planSpec pred h nodeLocs podLocs hnd hdisj).2.2⟩

theorem c3_witness :
    ((buildDrainPlan predOneSlot hTwoSpots [] [0, 1]).1
      = (planSpec predOneSlot (([] : List Nat).map (readCell hTwoSpots))
          ([0, 1].map (readPod hTwoSpots))).1) ∧
    (readPod (buildDrainPlan predOneSlot hTwoSpots [] [0, 1]).2
          (([0, 1] : List Nat).getD 1 0)
        = readPod hTwoSpots (([0, 1] : List Nat).getD 1 0)) :=
  ⟨(c3_fail_fast_first_unplaceable predOneSlot hTwoSpots [] [0, 1]
      (by decide) (by decide)).1,
   (c3_fail_fast_first_unplaceable predOneSlot hTwoSpots [] [0, 1]
      (by decide) (by decide)).2 1 (by decide) (by decide)⟩

/-- C9: the two control-loop variants make the same planning decision:
for the same spot `NodeInfoArray`, the same ordered candidate pod list and
the same predicate, `buildDrainPlan` succeeds exactly when the inline loop
finishes with `unmoveablePods = false`, and the two leave identical heaps
(identical tentative assignments in the clone, identical pod mutations). -/
theorem c9_variants_equivalent (pred : FeasPred) (h : Heap)
    (nodeLocs podLocs : List Nat) :
    ((buildDrainPlan pred h nodeLocs podLocs).1 = Except.ok ()
      ↔ (inlinePlanNode pred h nodeLocs podLocs).1 = false) ∧
    (buildDrainPlan pred h nodeLocs podLocs).2
      = (inlinePlanNode pred h nodeLocs podLocs).2 :=
  planGo_inlinePodLoop pred (copyNodeInfos h nodeLocs).1 podLocs
    (copyNodeInfos h nodeLocs).2

/-- C10 counterexample: the claim says every pod passed to
`findSpotNodeForPod` (hence examined by `buildDrainPlan`) has its
`Spec.NodeName` set to `""` in place.  With no spot nodes the first pod is
passed to `findSpotNodeForPod`, the plan fails, and the pod's `NodeName`
is still `"node-1"` afterwards: the wipe only happens inside the per-node
scan loop, which never runs on an empty array. -/
theorem c10_counterexample :
    (buildDrainPlan predAny hNoSpots [] [0]).1
      = Except.error "Pod pod-a can't be rescheduled on any existing spot node." ∧
    (readPod (buildDrainPlan predAny hNoSpots [] [0]).2 0).nodeName = "node-1" ∧
    ("node-1" : String) ≠ "" := by
  exact ⟨rfl, rfl, by decide⟩

/-- Against a nonempty array, the pod at position `j` is examined by the
plan loop exactly when the loop succeeds on the first `j` pods (they all
found a home); every examined pod gets its `NodeName` cleared in the
final heap, whatever the overall outcome. -/
theorem planGo_examined_clean (pred : FeasPred) (cl : Nat) (cls : List Nat) :
    ∀ (psLocs : List Nat) (h : Heap) (j : Nat), j < psLocs.length →
    (planGo pred (cl :: cls) h (psLocs.take j)).1 = Except.ok () →
    (readPod (planGo pred (cl :: cls) h psLocs).2
      (psLocs.getD j 0)).nodeName = "" := by
  intro psLocs
  induction psLocs with
  | nil => intro h j hj _; simp at hj
  | cons q rest ih =>
    intro h j hj hok
    cases j with
    | zero => exact planGo_head_clean pred cl cls h q rest
    | succ j0 =>
      rcases hfs : findSpotNodeForPod pred h (cl :: cls) q with ⟨fst, snd⟩
      rw [show (q :: rest).take (j0 + 1) = q :: rest.take j0 from rfl] at hok
      cases fst with
      | none =>
        rw [show (planGo pred (cl :: cls) h (q :: rest.take j0)).1
          = Except.error (planMsg (readPod snd q)) by simp only [planGo, hfs]] at hok
        exact absurd hok (by simp)
      | some l2 =>
        rw [show (planGo pred (cl :: cls) h (q :: rest.take j0)).1
          = (planGo pred (cl :: cls) (addPod snd l2 q) (rest.take j0)).1 by
            simp only [planGo, hfs]] at hok
        have := ih (addPod snd l2 q) j0 (by simpa using hj) hok
        simp only [planGo, hfs, List.getD_cons_succ]
        exact this

/-- C10 (amended): when the spot `NodeInfoArray` is nonempty, planning
mutates in place every candidate pod it examines: the pod at position `j`
is examined exactly when the plan succeeds on the prefix of the first `j`
pods, and every examined pod's `Spec.NodeName` is cleared in the final
heap — so on success all candidates are cleared, and on a failed plan
every candidate up to and including the failing one is cleared — and the
mutation persists after `buildDrainPlan` returns, including when the same
pod objects are then passed to the drain executor.  (When the array is
empty, pods are passed to `findSpotNodeForPod` but not mutated.) -/
theorem c10_nodename_wiped_in_place (pred : FeasPred) (h : Heap)
    (nodeLocs podLocs : List Nat) (hne : nodeLocs ≠ []) :
    (∀ j, j < podLocs.length →
      (buildDrainPlan pred h nodeLocs (podLocs.take j)).1 = Except.ok () →
      (readPod (buildDrainPlan pred h nodeLocs podLocs).2
        (podLocs.getD j 0)).nodeName = "") ∧
    ((buildDrainPlan pred h nodeLocs podLocs).1 = Except.ok () →
      ∀ p ∈ podLocs,
        (readPod (buildDrainPlan pred h nodeLocs podLocs).2 p).nodeName = "") := by
  obtain ⟨cl, cls, hclone⟩ : ∃ cl cls, (copyNodeInfos h nodeLocs).1 = cl :: cls := by
    cases hc : (copyNodeInfos h nodeLocs).1 with
    | nil =>
      have := copy_fst_length h nodeLocs
      rw [hc] at this
      cases nodeLocs with
      | nil => exact absurd rfl hne
      | cons a as => simp at this
    | cons a as => exact ⟨a, as, rfl⟩
  constructor
  · intro j hj hok
    have hok2 : (planGo pred (copyNodeInfos h nodeLocs).1
        (copyNodeInfos h nodeLocs).2 (podLocs.take j)).1 = Except.ok () := hok
    rw [hclone] at hok2
    show (readPod (planGo pred (copyNodeInfos h nodeLocs).1
      (copyNodeInfos h nodeLocs).2 podLocs).2 (podLocs.getD j 0)).nodeName = ""
    rw [hclone]
    exact planGo_examined_clean pred cl cls podLocs
      (copyNodeInfos h nodeLocs).2 j hj hok2
  · intro hok p hp
    show (readPod (planGo pred (copyNodeInfos h nodeLocs).1
      (copyNodeInfos h nodeLocs).2 podLocs).2 p).nodeName = ""
    rw [hclone]
    apply planGo_ok_clean pred cl cls podLocs (copyNodeInfos h nodeLocs).2 ?_ p hp
    rw [← hclone]
    exact hok

theorem c10_witness :
    (readPod (buildDrainPlan predOneSlot hTwoSpots [0] [0, 1]).2
      (([0, 1] : List Nat).getD 0 0)).nodeName = "" ∧
    (readPod (buildDrainPlan predOneSlot hTwoSpots [0] [0, 1]).2
      (([0, 1] : List Nat).getD 1 0)).nodeName = "" ∧
    (readPod (buildDrainPlan predOneSlot hTwoSpots [0, 1] [0, 1]).2 1).nodeName = "" :=
  ⟨(c10_nodename_wiped_in_place predOneSlot hTwoSpots [0] [0, 1]
      (by decide)).1 0 (by decide) rfl,
   (c10_nodename_wiped_in_place predOneSlot hTwoSpots [0] [0, 1]
      (by decide)).1 1 (by decide) rfl,
   (c10_nodename_wiped_in_place predOneSlot hTwoSpots [0, 1] [0, 1]
      (by decide)).2 rfl 1 (by decide)⟩

/-! ## The control loop (first variant, src/rescheduler.go:80-229)

One timer tick (`case <-time.After(...)`) is modelled as `runCycle`.
External collaborators — the listers, `nodes.NewNodeMap`, the
eviction-candidate filter `GetPodsForDeletionOnNodeDrain` and the drain
executor `drain.DrainNode` — are supplied by a per-cycle environment
`CycleEnv`, exactly as the Go code consumes them: each lister yields a
value plus an optional error, the filter yields per-node results, the
executor yields success or an error.  Times are naturals.  Metric calls
are recorded as events. -/

/-- Outcome data for one on-demand node in a cycle: the result of
`GetPodsForDeletionOnNodeDrain` (pod locations, or `none` for an error)
and the result `drain.DrainNode` would give if invoked. -/
structure OnDemandEntry where
  name : String
  filterResult : Option (List Nat)
  drainErr : Option String
  deriving Repr, DecidableEq

/-- One spot `NodeInfo` as the cycle sees it: its heap location, its node
name, and the result of the eviction-candidate filter run on it by
`updateSpotNodeMetrics` (`none` = error, `some n` = n relocatable pods). -/
structure SpotEntry where
  loc : Nat
  name : String
  filterCount : Option Nat
  deriving Repr, DecidableEq

/-- The `nodeMap` built by `nodes.NewNodeMap`, restricted to the two
roles the loop reads. -/
structure NodeMapM where
  onDemand : List OnDemandEntry
  spot : List SpotEntry
  deriving Repr, DecidableEq

/-- A call into the metrics package. -/
inductive MetricEvent where
  | nodesMap : MetricEvent
  | nodePodsCount (label : String) (name : String) (n : Nat) : MetricEvent
  | drainCount (result : String) (name : String) : MetricEvent
  deriving Repr, DecidableEq

/-- The only state surviving across cycles: `nextDrainTime`
(src/rescheduler.go:77). -/
structure LoopState where
  nextDrainTime : Nat
  deriving Repr, DecidableEq

/-- The configuration the loop reads: the two node labels and the
`node-drain-delay`. -/
structure Config where
  onDemandLabel : String
  spotLabel : String
  nodeDrainDelay : Nat
  deriving Repr, DecidableEq

/-- What the cluster hands the loop during one tick. -/
structure CycleEnv where
  now : Nat
  unschedulablePods : List Pod
  unschedulableErr : Option String
  nodeListErr : Option String
  nodeMap : Option NodeMapM
  pdbErr : Option String
  heap : Heap
  drainFinishTime : Nat
  deriving Repr, DecidableEq

/-- Observable outcome of one cycle. -/
structure CycleOut where
  state : LoopState
  heap : Heap
  builtNodeMap : Bool
  events : List MetricEvent
  planningCalls : Nat
  drains : List (String × Bool)
  deriving Repr, DecidableEq

/-- Outcome of the on-demand node loop. -/
structure NodesOut where
  heap : Heap
  newDrainTime : Option Nat
  events : List MetricEvent
  planningCalls : Nat
  drains : List (String × Bool)
  deriving Repr, DecidableEq

/-- `drainNode` (src/rescheduler.go:303-314): invoke the drain executor;
on failure record a `Failure` drain-count metric, on success a `Success`
one; in both cases set `nextDrainTime` to the finishing time plus the
configured drain delay.  Returns (executor error, new `nextDrainTime`,
metric event). -/
def drainNode (delay finishTime : Nat) (nodeName : String)
    (drainErr : Option String) : Option String × Nat × MetricEvent :=
  match drainErr with
  | some e => (some e, finishTime + delay, MetricEvent.drainCount "Failure" nodeName)
  | none => (none, finishTime + delay, MetricEvent.drainCount "Success" nodeName)

/-- `updateSpotNodeMetrics` (src/rescheduler.go:319-330): per spot node,
run the eviction-candidate filter; on error log and continue, otherwise
record the pod count under the spot label. -/
def updateSpotNodeMetrics (spotLabel : String) : List SpotEntry → List MetricEvent
  | [] => []
  | e :: rest =>
    match e.filterCount with
    | none => updateSpotNodeMetrics spotLabel rest
    | some n =>
      MetricEvent.nodePodsCount spotLabel e.name n :: updateSpotNodeMetrics spotLabel rest

/-- The on-demand node loop (src/rescheduler.go:189-223): per node, get
the pods for deletion (error: continue), record the pod-count metric,
skip nodes with no candidate pods, build a drain plan (failure: continue),
and on the first successful plan drain that node and `break`. -/
def processNodes (pred : FeasPred) (cfg : Config) (finishTime : Nat)
    (spotLocs : List Nat) : Heap → List OnDemandEntry → NodesOut
  | h, [] =>
    { heap := h, newDrainTime := none, events := [], planningCalls := 0, drains := [] }
  | h, e :: rest =>
    match e.filterResult with
    | none => processNodes pred cfg finishTime spotLocs h rest
    | some podLocs =>
      if podLocs.length < 1 then
        let out := processNodes pred cfg finishTime spotLocs h rest
        { out with events :=
            MetricEvent.nodePodsCount cfg.onDemandLabel e.name podLocs.length :: out.events }
      else
        match buildDrainPlan pred h spotLocs podLocs with
        | (Except.error _, h1) =>
          let out := processNodes pred cfg finishTime spotLocs h1 rest
          { out with
              events := MetricEvent.nodePodsCount cfg.onDemandLabel e.name
                podLocs.length :: out.events
              planningCalls := out.planningCalls + 1 }
        | (Except.ok _, h1) =>
          let d := drainNode cfg.nodeDrainDelay finishTime e.name e.drainErr
          { heap := h1
            newDrainTime := some d.2.1
            events := [MetricEvent.nodePodsCount cfg.onDemandLabel e.name
              podLocs.length, d.2.2]
            planningCalls := 1
            drains := [(e.name, d.1.isNone)] }

/-- One tick of the main loop (src/rescheduler.go:133-226), in the source
order: the drain-delay (cooldown) gate; the unschedulable-pod listing
(whose error is only logged); the unschedulable-pod gate; the node
listing (error aborts the cycle); `NewNodeMap` (error aborts);
`metrics.UpdateNodesMap`; the PDB listing (error aborts);
`updateSpotNodeMetrics`; then the on-demand node loop. -/
def runCycle (pred : FeasPred) (cfg : Config) (st : LoopState)
    (env : CycleEnv) : CycleOut :=
  if env.now < st.nextDrainTime then
    { state := st, heap := env.heap, builtNodeMap := false, events := [],
      planningCalls := 0, drains := [] }
  else if env.unschedulablePods.length > 0 then
    { state := st, heap := env.heap, builtNodeMap := false, events := [],
      planningCalls := 0, drains := [] }
  else if env.nodeListErr.isSome then
    { state := st, heap := env.heap, builtNodeMap := false, events := [],
      planningCalls := 0, drains := [] }
  else
    match env.nodeMap with
    | none =>
      { state := st, heap := env.heap, builtNodeMap := false, events := [],
        planningCalls := 0, drains := [] }
    | some nm =>
      if env.pdbErr.isSome then
        { state := st, heap := env.heap, builtNodeMap := true,
          events := [MetricEvent.nodesMap], planningCalls := 0, drains := [] }
      else
        let out := processNodes pred cfg env.drainFinishTime
          (nm.spot.map SpotEntry.loc) env.heap nm.onDemand
        { state := { nextDrainTime := out.newDrainTime.getD st.nextDrainTime }
          heap := out.heap
          builtNodeMap := true
          events := MetricEvent.nodesMap ::
            (updateSpotNodeMetrics cfg.spotLabel nm.spot ++ out.events)
          planningCalls := out.planningCalls
          drains := out.drains }

/-! ## Lemmas about the loop -/

theorem drainNode_fst (delay t : Nat) (n : String) (err : Option String) :
    (drainNode delay t n err).1 = err := by
  cases err <;> rfl

theorem drainNode_time (delay t : Nat) (n : String) (err : Option String) :
    (drainNode delay t n err).2.1 = t + delay := by
  cases err <;> rfl

theorem processNodes_drains_le_one (pred : FeasPred) (cfg : Config)
    (finishTime : Nat) (spotLocs : List Nat) :
    ∀ (entries : List OnDemandEntry) (h : Heap),
    (processNodes pred cfg finishTime spotLocs h entries).drains.length ≤ 1 := by
  intro entries
  induction entries with
  | nil => intro h; simp [processNodes]
  | cons e rest ih =>
    intro h
    cases hf : e.filterResult with
    | none =>
      simp only [processNodes, hf]
      exact ih h
    | some podLocs =>
      simp only [processNodes, hf]
      by_cases hlen : podLocs.length < 1
      · rw [if_pos hlen]
        exact ih h
      · rw [if_neg hlen]
        rcases hbp : buildDrainPlan pred h spotLocs podLocs with ⟨res, h1⟩
        cases res with
        | error msg => exact ih h1
        | ok u => simp

theorem processNodes_drain_time (pred : FeasPred) (cfg : Config)
    (finishTime : Nat) (spotLocs : List Nat) :
    ∀ (entries : List OnDemandEntry) (h : Heap),
    (processNodes pred cfg finishTime spotLocs h entries).drains ≠ [] →
    (processNodes pred cfg finishTime spotLocs h entries).newDrainTime
      = some (finishTime + cfg.nodeDrainDelay) := by
  intro entries
  induction entries with
  | nil => intro h hne; exact absurd rfl hne
  | cons e rest ih =>
    intro h hne
    cases hf : e.filterResult with
    | none =>
      simp only [processNodes, hf] at hne ⊢
      exact ih h hne
    | some podLocs =>
      simp only [processNodes, hf] at hne ⊢
      by_cases hlen : podLocs.length < 1
      · rw [if_pos hlen] at hne ⊢
        exact ih h hne
      · rw [if_neg hlen] at hne ⊢
        rcases hbp : buildDrainPlan pred h spotLocs podLocs with ⟨res, h1⟩
        rw [hbp] at hne
        cases res with
        | error msg =>
          simp only at hne ⊢
          exact ih h1 hne
        | ok u =>
          simp only
          rw [drainNode_time]

/-! ## Loop fixtures -/

def cfgT : Config :=
  { onDemandLabel := "od-label", spotLabel := "spot-label", nodeDrainDelay := 7 }

def hOneSpot : Heap :=
  { nodes := [{ nodeName := "s1", pods := [] }]
    pods := [{ name := "p1", nodeName := "od1" }] }

def nmT : NodeMapM :=
  { onDemand := [{ name := "od1", filterResult := some [0], drainErr := none }]
    spot := [{ loc := 0, name := "s1", filterCount := some 0 }] }

/-- A tick on which every gate passes and the single on-demand node has a
fully feasible plan. -/
def envOkT : CycleEnv :=
  { now := 5, unschedulablePods := [], unschedulableErr := none,
    nodeListErr := none, nodeMap := some nmT, pdbErr := none,
    heap := hOneSpot, drainFinishTime := 3 }

/-- The same tick, but the unschedulable-pod listing fails. -/
def envListErrT : CycleEnv := { envOkT with unschedulableErr := some "boom" }

/-- The same tick, but the node listing fails. -/
def envNodeErrT : CycleEnv := { envOkT with nodeListErr := some "down" }

/-! ## Claim theorems: the loop -/

/-- C4: after any drain attempt finishing at time `T` — executor success
or failure alike — the cooldown deadline becomes `T` plus the configured
drain delay, and a cycle whose start time is before the current deadline
performs no drain attempt (and leaves the state untouched), whatever
plans would be feasible. -/
theorem c4_cooldown_gate (pred : FeasPred) (cfg : Config) (st : LoopState)
    (env : CycleEnv) :
    (env.now < st.nextDrainTime →
      (runCycle pred cfg st env).drains = [] ∧
      (runCycle pred cfg st env).state = st) ∧
    ((runCycle pred cfg st env).drains ≠ [] →
      (runCycle pred cfg st env).state.nextDrainTime
        = env.drainFinishTime + cfg.nodeDrainDelay) := by
  constructor
  · intro hc
    simp [runCycle, hc]
  · intro hne
    by_cases hc : env.now < st.nextDrainTime
    · rw [show (runCycle pred cfg st env).drains = [] by simp [runCycle, hc]] at hne
      exact absurd rfl hne
    · by_cases hu : env.unschedulablePods.length > 0
      · rw [show (runCycle pred cfg st env).drains = [] by simp [runCycle, hc, hu]] at hne
        exact absurd rfl hne
      · by_cases hn : env.nodeListErr.isSome
        · rw [show (runCycle pred cfg st env).drains = [] by
            simp [runCycle, hc, hu, hn]] at hne
          exact absurd rfl hne
        · cases hm : env.nodeMap with
          | none =>
            rw [show (runCycle pred cfg st env).drains = [] by
              simp [runCycle, hc, hu, hn, hm]] at hne
            exact absurd rfl hne
          | some nm =>
            by_cases hp : env.pdbErr.isSome
            · rw [show (runCycle pred cfg st env).drains = [] by
                simp [runCycle, hc, hu, hn, hm, hp]] at hne
              exact absurd rfl hne
            · have hout : (runCycle pred cfg st env).drains
                  = (processNodes pred cfg env.drainFinishTime
                    (nm.spot.map SpotEntry.loc) env.heap nm.onDemand).drains := by
                simp [runCycle, hc, hu, hn, hm, hp]
              have hstate : (runCycle pred cfg st env).state.nextDrainTime
                  = ((processNodes pred cfg env.drainFinishTime
                    (nm.spot.map SpotEntry.loc) env.heap nm.onDemand).newDrainTime).getD
                      st.nextDrainTime := by
                simp [runCycle, hc, hu, hn, hm, hp]
              rw [hout] at hne
              rw [hstate, processNodes_drain_time pred cfg env.drainFinishTime
                (nm.spot.map SpotEntry.loc) nm.onDemand env.heap hne]
              rfl

theorem c4_witness :
    ((runCycle predAny cfgT (LoopState.mk 100) envOkT).drains = [] ∧
     (runCycle predAny cfgT (LoopState.mk 100) envOkT).state = LoopState.mk 100) ∧
    (runCycle predAny cfgT (LoopState.mk 0) envOkT).state.nextDrainTime
        = envOkT.drainFinishTime + cfgT.nodeDrainDelay :=
  ⟨(c4_cooldown_gate predAny cfgT (LoopState.mk 100) envOkT).1 (by decide),
   (c4_cooldown_gate predAny cfgT (LoopState.mk 0) envOkT).2 (by decide)⟩

/-- C5: at most one drain attempt per cycle.  The loop continues to the
next node when the eviction-candidate filter errors, when a node has no
candidate pods, and when its plan fails; and as soon as the first node
with a nonempty candidate list gets a successful plan, exactly that node
is drained (whether the drain then succeeds or fails) and iteration
stops: the cycle's drain list is that singleton. -/
theorem c5_at_most_one_drain (pred : FeasPred) (cfg : Config) :
    (∀ st env, (runCycle pred cfg st env).drains.length ≤ 1) ∧
    (∀ finishTime spotLocs h e rest, e.filterResult = none →
      (processNodes pred cfg finishTime spotLocs h (e :: rest)).drains
        = (processNodes pred cfg finishTime spotLocs h rest).drains) ∧
    (∀ finishTime spotLocs h e rest, e.filterResult = some [] →
      (processNodes pred cfg finishTime spotLocs h (e :: rest)).drains
        = (processNodes pred cfg finishTime spotLocs h rest).drains) ∧
    (∀ finishTime spotLocs h e rest podLocs msg, e.filterResult = some podLocs →
      (buildDrainPlan pred h spotLocs podLocs).1 = Except.error msg →
      (processNodes pred cfg finishTime spotLocs h (e :: rest)).drains
        = (processNodes pred cfg finishTime spotLocs
            (buildDrainPlan pred h spotLocs podLocs).2 rest).drains) ∧
    (∀ st env nm e rest podLocs,
      ¬ env.now < st.nextDrainTime →
      env.unschedulablePods.length = 0 →
      env.nodeListErr = none →
      env.nodeMap = some nm →
      env.pdbErr = none →
      nm.onDemand = e :: rest →
      e.filterResult = some podLocs →
      podLocs ≠ [] →
      (buildDrainPlan pred env.heap (nm.spot.map SpotEntry.loc) podLocs).1
        = Except.ok () →
      (runCycle pred cfg st env).drains = [(e.name, e.drainErr.isNone)]) := by
  refine ⟨?_, ?_, ?_, ?_, ?_⟩
  · intro st env
    by_cases hc : env.now < st.nextDrainTime
    · simp [runCycle, hc]
    · by_cases hu : env.unschedulablePods.length > 0
      · simp [runCycle, hc, hu]
      · by_cases hn : env.nodeListErr.isSome
        · simp [runCycle, hc, hu, hn]
        · cases hm : env.nodeMap with
          | none => simp [runCycle, hc, hu, hn, hm]
          | some nm =>
            by_cases hp : env.pdbErr.isSome
            · simp [runCycle, hc, hu, hn, hm, hp]
            · have : (runCycle pred cfg st env).drains
                  = (processNodes pred cfg env.drainFinishTime
                    (nm.spot.map SpotEntry.loc) env.heap nm.onDemand).drains := by
                simp [runCycle, hc, hu, hn, hm, hp]
              rw [this]
              exact processNodes_drains_le_one pred cfg env.drainFinishTime
                (nm.spot.map SpotEntry.loc) nm.onDemand env.heap
  · intro finishTime spotLocs h e rest hf
    simp only [processNodes, hf]
  · intro finishTime spotLocs h e rest hf
    simp only [processNodes, hf]
    rw [if_pos (by simp)]
  · intro finishTime spotLocs h e rest podLocs msg hf herr
    have hlen : ¬ podLocs.length < 1 := by
      cases podLocs with
      | nil =>
        rw [show (buildDrainPlan pred h spotLocs ([] : List Nat)).1
          = Except.ok () from rfl] at herr
        exact absurd herr (by simp)
      | cons a as => simp
    have hpair : buildDrainPlan pred h spotLocs podLocs
        = (Except.error msg, (buildDrainPlan pred h spotLocs podLocs).2) :=
      Prod.ext herr rfl
    simp only [processNodes, hf]
    rw [if_neg hlen, hpair]
  · intro st env nm e rest podLocs hc hu hn hm hp hd hf hpne hok
    have hu2 : ¬ env.unschedulablePods.length > 0 := by omega
    have hn2 : ¬ env.nodeListErr.isSome = true := by simp [hn]
    have hp2 : ¬ env.pdbErr.isSome = true := by simp [hp]
    have hlen : ¬ podLocs.length < 1 := by
      cases podLocs with
      | nil => exact absurd rfl hpne
      | cons a as => simp
    have hpair : buildDrainPlan pred env.heap (nm.spot.map SpotEntry.loc) podLocs
        = (Except.ok (), (buildDrainPlan pred env.heap
            (nm.spot.map SpotEntry.loc) podLocs).2) :=
      Prod.ext hok rfl
    have hmain : (runCycle pred cfg st env).drains
        = (processNodes pred cfg env.drainFinishTime
          (nm.spot.map SpotEntry.loc) env.heap nm.onDemand).drains := by
      simp [runCycle, hc, hu2, hn2, hm, hp2]
    rw [hmain, hd]
    simp only [processNodes, hf]
    rw [if_neg hlen, hpair]
    simp only
    rw [drainNode_fst]

theorem c5_witness :
    (runCycle predAny cfgT (LoopState.mk 0) envOkT).drains
      = [("od1", (none : Option String).isNone)] :=
  (c5_at_most_one_drain predAny cfgT).2.2.2.2 (LoopState.mk 0) envOkT nmT
    { name := "od1", filterResult := some [0], drainErr := none }
    [] [0] (by decide) (by decide) (by decide) (by decide) (by decide)
    (by decide) (by decide) (by decide) rfl

/-- C6: if unschedulable pods exist at cycle start (after the cooldown
check), the cycle builds no node map, runs no planning and attempts no
drain, and the loop state is unchanged, whatever plans would have been
feasible. -/
theorem c6_unschedulable_gate (pred : FeasPred) (cfg : Config)
    (st : LoopState) (env : CycleEnv)
    (hc : ¬ env.now < st.nextDrainTime)
    (hu : 0 < env.unschedulablePods.length) :
    (runCycle pred cfg st env).builtNodeMap = false ∧
    (runCycle pred cfg st env).planningCalls = 0 ∧
    (runCycle pred cfg st env).drains = [] ∧
    (runCycle pred cfg st env).state = st := by
  simp [runCycle, hc, hu]

theorem c6_witness :
    (runCycle predAny cfgT (LoopState.mk 0)
      { envOkT with unschedulablePods := [{ name := "u", nodeName := "" }] }).builtNodeMap
        = false ∧
    (runCycle predAny cfgT (LoopState.mk 0)
      { envOkT with unschedulablePods := [{ name := "u", nodeName := "" }] }).planningCalls
        = 0 ∧
    (runCycle predAny cfgT (LoopState.mk 0)
      { envOkT with unschedulablePods := [{ name := "u", nodeName := "" }] }).drains
        = [] ∧
    (runCycle predAny cfgT (LoopState.mk 0)
      { envOkT with unschedulablePods := [{ name := "u", nodeName := "" }] }).state
        = LoopState.mk 0 :=
  c6_unschedulable_gate predAny cfgT (LoopState.mk 0)
    { envOkT with unschedulablePods := [{ name := "u", nodeName := "" }] }
    (by decide) (by decide)

/-- C7 counterexample: the claim includes the unschedulable-pod listing
among the errors that abort the cycle with no state mutation.  On a tick
where that listing errors (and returns no pods, as the Go listers do on
error), the cycle nevertheless proceeds: it builds the node map, runs one
planning call, attempts a drain, and advances the cooldown deadline — the
code at src/rescheduler.go:140-143 only logs this error and does not
`continue`. -/
theorem c7_counterexample :
    envListErrT.unschedulableErr = some "boom" ∧
    (runCycle predAny cfgT (LoopState.mk 0) envListErrT).builtNodeMap = true ∧
    (runCycle predAny cfgT (LoopState.mk 0) envListErrT).planningCalls = 1 ∧
    (runCycle predAny cfgT (LoopState.mk 0) envListErrT).drains = [("od1", true)] ∧
    (runCycle predAny cfgT (LoopState.mk 0) envListErrT).state.nextDrainTime = 10 := by
  exact ⟨rfl, by decide, by decide, by decide, by decide⟩

/-- C7 (amended): the node listing, the node-map build and the PDB
listing each abort the current cycle only when they fail: the loop state
(hence the cooldown deadline) and the heap are unchanged, no planning
runs and no drain is attempted; the work is simply left for the next
tick.  An error from the unschedulable-pod listing, in contrast, is only
logged and the cycle continues.  In the PDB case the node-map metrics
update has already run, so that single metric event is emitted. -/
theorem c7_read_errors_abort_cycle (pred : FeasPred) (cfg : Config)
    (st : LoopState) (env : CycleEnv) :
    (¬ env.now < st.nextDrainTime → env.unschedulablePods.length = 0 →
      env.nodeListErr.isSome →
      (runCycle pred cfg st env).state = st ∧
      (runCycle pred cfg st env).planningCalls = 0 ∧
      (runCycle pred cfg st env).drains = [] ∧
      (runCycle pred cfg st env).heap = env.heap ∧
      (runCycle pred cfg st env).events = []) ∧
    (¬ env.now < st.nextDrainTime → env.unschedulablePods.length = 0 →
      env.nodeMap = none →
      (runCycle pred cfg st env).state = st ∧
      (runCycle pred cfg st env).planningCalls = 0 ∧
      (runCycle pred cfg st env).drains = [] ∧
      (runCycle pred cfg st env).heap = env.heap ∧
      (runCycle pred cfg st env).events = []) ∧
    (∀ nm, ¬ env.now < st.nextDrainTime → env.unschedulablePods.length = 0 →
      env.nodeListErr = none → env.nodeMap = some nm → env.pdbErr.isSome →
      (runCycle pred cfg st env).state = st ∧
      (runCycle pred cfg st env).planningCalls = 0 ∧
      (runCycle pred cfg st env).drains = [] ∧
      (runCycle pred cfg st env).heap = env.heap ∧
      (runCycle pred cfg st env).events = [MetricEvent.nodesMap]) := by
  refine ⟨?_, ?_, ?_⟩
  · intro hc hu hn
    have hu2 : ¬ env.unschedulablePods.length > 0 := by omega
    simp [runCycle, hc, hu2, hn]
  · intro hc hu hm
    have hu2 : ¬ env.unschedulablePods.length > 0 := by omega
    by_cases hn : env.nodeListErr.isSome
    · simp [runCycle, hc, hu2, hn]
    · simp [runCycle, hc, hu2, hn, hm]
  · intro nm hc hu hn hm hp
    have hu2 : ¬ env.unschedulablePods.length > 0 := by omega
    have hn2 : ¬ env.nodeListErr.isSome = true := by simp [hn]
    simp [runCycle, hc, hu2, hn2, hm, hp]

theorem c7_witness :
    (runCycle predAny cfgT (LoopState.mk 0) envNodeErrT).state = LoopState.mk 0 ∧
    (runCycle predAny cfgT (LoopState.mk 0) envNodeErrT).planningCalls = 0 ∧
    (runCycle predAny cfgT (LoopState.mk 0) envNodeErrT).drains = [] ∧
    (runCycle predAny cfgT (LoopState.mk 0) envNodeErrT).heap = envNodeErrT.heap ∧
    (runCycle predAny cfgT (LoopState.mk 0) envNodeErrT).events = [] :=
  (c7_read_errors_abort_cycle predAny cfgT (LoopState.mk 0) envNodeErrT).1
    (by decide) (by decide) (by decide)

/-- C8 counterexample: the claim says cycles starting within the cooldown
window still update the per-node pod-count metrics.  On a tick that
starts before the deadline the cycle emits no metric events at all
(src/rescheduler.go:134-137 `continue`s before any metrics call), while
the identical tick outside the window does emit them. -/
theorem c8_counterexample :
    (runCycle predAny cfgT (LoopState.mk 100) envOkT).events = [] ∧
    (runCycle predAny cfgT (LoopState.mk 0) envOkT).events ≠ [] := by
  exact ⟨by decide, by decide⟩

/-- C8 (amended): a cycle that starts within the cooldown window performs
no metric updates at all; the node metrics update (`UpdateNodesMap`) runs
in every cycle that passes the cooldown and unschedulable-pods gates and
whose node listing and node-map build succeed. -/
theorem c8_metrics_after_gates (pred : FeasPred) (cfg : Config)
    (st : LoopState) (env : CycleEnv) :
    (env.now < st.nextDrainTime → (runCycle pred cfg st env).events = []) ∧
    (∀ nm, ¬ env.now < st.nextDrainTime → env.unschedulablePods.length = 0 →
      env.nodeListErr = none → env.nodeMap = some nm →
      MetricEvent.nodesMap ∈ (runCycle pred cfg st env).events) := by
  constructor
  · intro hc
    simp [runCycle, hc]
  · intro nm hc hu hn hm
    have hu2 : ¬ env.unschedulablePods.length > 0 := by omega
    have hn2 : ¬ env.nodeListErr.isSome = true := by simp [hn]
    by_cases hp : env.pdbErr.isSome
    · simp [runCycle, hc, hu2, hn2, hm, hp]
    · simp [runCycle, hc, hu2, hn2, hm, hp]

theorem c8_witness :
    (runCycle predAny cfgT (LoopState.mk 100) envOkT).events = [] ∧
    MetricEvent.nodesMap ∈ (runCycle predAny cfgT (LoopState.mk 0) envOkT).events :=
  ⟨(c8_metrics_after_gates predAny cfgT (LoopState.mk 100) envOkT).1 (by decide),
   (c8_metrics_after_gates predAny cfgT (LoopState.mk 0) envOkT).2 nmT
      (by decide) (by decide) (by decide) (by decide)⟩

end SpotResched
